import Mathlib

/-!
Shallow embedding of `crates/mun_syntax/src/ast/expr_extensions.rs`:
typed AST accessor extensions over a rowan-style concrete syntax tree.
Tree substrate operations (children iteration, token conversion, text
ranges, typed child filtering) are modelled from the spec's §6 interface
description; all accessor logic is translated from the source file.
-/

namespace Mun

/-- Lexical and grammar kind tags (`SyntaxKind` in the source). Only the kinds
the accessors inspect are listed individually; `OTHER` stands for every
remaining kind. -/
inductive SyntaxKind where
  | EXCL | MINUS | PLUS | SLASH | STAR
  | EQ | PLUSEQ | MINUSEQ | SLASHEQ | STAREQ
  | EQEQ | NEQ | LT | LTEQ | GT | GTEQ
  | STRING | INT_NUMBER | FLOAT_NUMBER | TRUE_KW | FALSE_KW
  | INDEX | NAME_REF | IDENT | DOT
  | WHITESPACE | COMMENT
  | FIELD_EXPR | LITERAL | PREFIX_EXPR | BIN_EXPR | IF_EXPR | BLOCK_EXPR
  | PATH_EXPR | ERROR | OTHER
  deriving DecidableEq, Repr

/-- Text positions are `TextUnit` (a `usize` wrapper) in the source; modelled
as `Nat`. A `TextRange` holds a start and an end position (`end` is a Lean
keyword, so the end position is named `stop`). -/
structure TextRange where
  start : Nat
  stop : Nat
  deriving DecidableEq, Repr

/-- Models `TextRange::from_to(start, end)`. -/
def TextRange.from_to (start stop : Nat) : TextRange := ⟨start, stop⟩

/-- Modelled from the spec: the generic tree substrate (§3, §6), which is not
part of the repository file under scrutiny. An element is a non-terminal node
(kind tag, text range, ordered children interleaving nodes and tokens) or a
terminal token (kind tag, text range). -/
inductive SyntaxElement where
  | node (kind : SyntaxKind) (range : TextRange) (children : List SyntaxElement)
  | token (kind : SyntaxKind) (range : TextRange)

namespace SyntaxElement

/-- Kind tag of a node or token. -/
def kind : SyntaxElement → SyntaxKind
  | node k _ _ => k
  | token k _ => k

/-- Models `text_range()` on nodes and tokens. -/
def text_range : SyntaxElement → TextRange
  | node _ r _ => r
  | token _ r => r

/-- Models `children_with_tokens()`: the interleaved node-and-token child
sequence (empty for a token). -/
def children_with_tokens : SyntaxElement → List SyntaxElement
  | node _ _ cs => cs
  | token _ _ => []

/-- Models `NodeOrToken::into_token()`: `some` exactly on tokens. -/
def into_token : SyntaxElement → Option SyntaxElement
  | node _ _ _ => none
  | token k r => some (token k r)

/-- Whether the element is a token. -/
def is_token : SyntaxElement → Bool
  | node _ _ _ => false
  | token _ _ => true

/-- Whether the element is a node. -/
def is_node : SyntaxElement → Bool
  | node _ _ _ => true
  | token _ _ => false

/-- Models `first_child_or_token()`. -/
def first_child_or_token (n : SyntaxElement) : Option SyntaxElement :=
  n.children_with_tokens.head?

end SyntaxElement

/-- Modelled from the spec: trivia are whitespace and comments (glossary),
skipped during semantic queries. Models `SyntaxKind::is_trivia`. -/
def SyntaxKind.is_trivia : SyntaxKind → Bool
  | .WHITESPACE => true
  | .COMMENT => true
  | _ => false

/-- Modelled from the spec: the kind-tagged downcast used by typed child
accessors (§9 "try-interpret-as"). `child_opt k n` is the first child node of
`n` whose kind tag is `k`, models `child_opt::<N>(self)`. -/
def child_opt (k : SyntaxKind) (n : SyntaxElement) : Option SyntaxElement :=
  (n.children_with_tokens.filter
    (fun e => e.is_node && e.kind == k)).head?

/-- Modelled from the spec: which grammar kinds are expression productions,
used by the `ast::Expr` downcast (§4.1 "children to those that are themselves
expression nodes"). -/
def SyntaxKind.is_expr : SyntaxKind → Bool
  | .LITERAL => true
  | .PREFIX_EXPR => true
  | .BIN_EXPR => true
  | .PATH_EXPR => true
  | .FIELD_EXPR => true
  | .IF_EXPR => true
  | .BLOCK_EXPR => true
  | _ => false

/-- Modelled from the spec: `children(self) : AstChildren<ast::Expr>`, the
child nodes that are expression productions, in source order. -/
def expr_children (n : SyntaxElement) : List SyntaxElement :=
  n.children_with_tokens.filter (fun e => e.is_node && e.kind.is_expr)

/-- Child tokens of a node, in source order: models
`children_with_tokens().filter_map(|it| it.into_token())`. -/
def child_tokens (n : SyntaxElement) : List SyntaxElement :=
  n.children_with_tokens.filterMap SyntaxElement.into_token

/-- Semantic unary operator (`PrefixOp` in the source). -/
inductive PrefixOp where
  | Not
  | Neg
  deriving DecidableEq, Repr

namespace PrefixExpr

/-- Translates `ast::PrefixExpr::op_token`: the first child-or-token element,
converted to a token (`None` when absent or a node). -/
def op_token (n : SyntaxElement) : Option SyntaxElement :=
  n.first_child_or_token.bind SyntaxElement.into_token

/-- Translates `ast::PrefixExpr::op_kind`. -/
def op_kind (n : SyntaxElement) : Option PrefixOp :=
  (op_token n).bind fun t =>
    match t.kind with
    | .EXCL => some PrefixOp.Not
    | .MINUS => some PrefixOp.Neg
    | _ => none

end PrefixExpr

/-- Semantic binary/assignment operator (`BinOp` in the source). -/
inductive BinOp where
  | Add | Subtract | Divide | Multiply
  | Assign | AddAssign | SubtractAssign | DivideAssign | MultiplyAssign
  | Equals | NotEquals | LessEqual | Less | GreatEqual | Greater
  deriving DecidableEq, Repr

/-- The fixed operator table of `BinExpr::op_details`, written as one match in
the source; factored out here with arms in the source's order and content. -/
def bin_op_for_kind : SyntaxKind → Option BinOp
  | .PLUS => some BinOp.Add
  | .MINUS => some BinOp.Subtract
  | .SLASH => some BinOp.Divide
  | .STAR => some BinOp.Multiply
  | .EQ => some BinOp.Assign
  | .PLUSEQ => some BinOp.AddAssign
  | .MINUSEQ => some BinOp.SubtractAssign
  | .SLASHEQ => some BinOp.DivideAssign
  | .STAREQ => some BinOp.MultiplyAssign
  | .EQEQ => some BinOp.Equals
  | .NEQ => some BinOp.NotEquals
  | .LT => some BinOp.Less
  | .LTEQ => some BinOp.LessEqual
  | .GT => some BinOp.Greater
  | .GTEQ => some BinOp.GreatEqual
  | _ => none

namespace BinExpr

/-- Translates `BinExpr::op_details`: the first child token whose kind is in
the operator table, paired with its `BinOp`. -/
def op_details (n : SyntaxElement) : Option (SyntaxElement × BinOp) :=
  (child_tokens n).findSome? fun c =>
    (bin_op_for_kind c.kind).map fun op => (c, op)

/-- Translates `BinExpr::op_kind`. -/
def op_kind (n : SyntaxElement) : Option BinOp :=
  (op_details n).map Prod.snd

/-- Translates `BinExpr::op_token`. -/
def op_token (n : SyntaxElement) : Option SyntaxElement :=
  (op_details n).map Prod.fst

/-- Translates `BinExpr::lhs`: `children(self).next()`. -/
def lhs (n : SyntaxElement) : Option SyntaxElement :=
  (expr_children n).head?

/-- Translates `BinExpr::rhs`: `children(self).nth(1)`. -/
def rhs (n : SyntaxElement) : Option SyntaxElement :=
  (expr_children n).get? 1

/-- Translates `BinExpr::sub_exprs`: one pass over the expression children,
taking the first two elements of the iterator. -/
def sub_exprs (n : SyntaxElement) : Option SyntaxElement × Option SyntaxElement :=
  let cs := expr_children n
  (cs.head?, cs.tail.head?)

end BinExpr

/-- The two legal shapes of field access (`FieldKind` in the source). -/
inductive FieldKind where
  | Name (nr : SyntaxElement)
  | Index (tok : SyntaxElement)

namespace FieldExpr

/-- Models the generated accessor `FieldExpr::name_ref`: the first child node
of kind `NAME_REF` (spec §4.2 "a name-reference child"). -/
def name_ref (n : SyntaxElement) : Option SyntaxElement :=
  child_opt SyntaxKind.NAME_REF n

/-- Translates `FieldExpr::index_token`: the first child element of kind
`INDEX`, converted to a token. -/
def index_token (n : SyntaxElement) : Option SyntaxElement :=
  (n.children_with_tokens.find?
    (fun e => e.kind == SyntaxKind.INDEX)).bind SyntaxElement.into_token

/-- Translates `FieldExpr::field_access`. -/
def field_access (n : SyntaxElement) : Option FieldKind :=
  match name_ref n with
  | some nr => some (FieldKind.Name nr)
  | none =>
    match index_token n with
    | some tok => some (FieldKind.Index tok)
    | none => none

/-- Translates `FieldExpr::field_range`, tiered fallback included. -/
def field_range (n : SyntaxElement) : TextRange :=
  let field_name := (name_ref n).map fun m => m.text_range
  let field_index := (index_token n).map fun i => i.text_range
  let start :=
    ((field_name.map TextRange.start).or
      (field_index.map fun i => i.start + 1)).getD n.text_range.start
  let stop :=
    ((field_name.map TextRange.stop).or
      (field_index.map TextRange.stop)).getD n.text_range.stop
  TextRange.from_to start stop

end FieldExpr

/-- Semantic literal category (`LiteralKind` in the source). -/
inductive LiteralKind where
  | String
  | IntNumber
  | FloatNumber
  | Bool
  deriving DecidableEq, Repr

namespace Literal

/-- First non-trivia child element of a literal node. -/
def first_non_trivia (n : SyntaxElement) : Option SyntaxElement :=
  n.children_with_tokens.find? fun e => !(SyntaxKind.is_trivia e.kind)

/-- Translates `Literal::token`. The source unwraps; `none` here models the
panic, taken exactly when there is no non-trivia child element or the first
non-trivia child element is a node. -/
def token (n : SyntaxElement) : Option SyntaxElement :=
  (first_non_trivia n).bind SyntaxElement.into_token

/-- Translates `Literal::kind`. `none` models the fatal paths: the
`unreachable!()` arm for a meaningful token outside the four literal kinds,
and the `unwrap` panic of `Literal::token`. -/
def kind (n : SyntaxElement) : Option LiteralKind :=
  (token n).bind fun t =>
    match t.kind with
    | .STRING => some LiteralKind.String
    | .FLOAT_NUMBER => some LiteralKind.FloatNumber
    | .INT_NUMBER => some LiteralKind.IntNumber
    | .TRUE_KW => some LiteralKind.Bool
    | .FALSE_KW => some LiteralKind.Bool
    | _ => none

end Literal

/-- The two legal shapes of an else continuation (`ElseBranch` in the source). -/
inductive ElseBranch where
  | Block (b : SyntaxElement)
  | IfExpr (e : SyntaxElement)

namespace IfExpr

/-- Translates `IfExpr::blocks`: `children(self) : AstChildren<ast::BlockExpr>`,
the child nodes of kind `BLOCK_EXPR` in source order (the `BlockExpr` downcast
is modelled from the spec's §3 block-expression production). -/
def blocks (n : SyntaxElement) : List SyntaxElement :=
  n.children_with_tokens.filter
    (fun e => e.is_node && e.kind == SyntaxKind.BLOCK_EXPR)

/-- Translates `IfExpr::then_branch`: the first nested block-expression child. -/
def then_branch (n : SyntaxElement) : Option SyntaxElement :=
  (blocks n).head?

/-- Translates `IfExpr::else_branch`. -/
def else_branch (n : SyntaxElement) : Option ElseBranch :=
  match (blocks n).get? 1 with
  | some block => some (ElseBranch.Block block)
  | none => (child_opt SyntaxKind.IF_EXPR n).map ElseBranch.IfExpr

end IfExpr

/-! Concrete tree fixtures used by the witness and counterexample theorems. -/

/-- Fixture: the tree of `a + b` as a binary-expression node. -/
def ex_bin : SyntaxElement :=
  .node .BIN_EXPR ⟨0, 5⟩
    [.node .PATH_EXPR ⟨0, 1⟩ [],
     .token .WHITESPACE ⟨1, 2⟩,
     .token .PLUS ⟨2, 3⟩,
     .token .WHITESPACE ⟨3, 4⟩,
     .node .PATH_EXPR ⟨4, 5⟩ []]

/-- Fixture: the tree of `x.y` as a field-access node. -/
def ex_field_name : SyntaxElement :=
  .node .FIELD_EXPR ⟨0, 3⟩
    [.node .PATH_EXPR ⟨0, 1⟩ [],
     .token .DOT ⟨1, 2⟩,
     .node .NAME_REF ⟨2, 3⟩ []]

/-- Fixture: the tree of `x.0` as a field-access node, the index token `.0`
covering the separator and the digit. -/
def ex_field_index : SyntaxElement :=
  .node .FIELD_EXPR ⟨0, 3⟩
    [.node .PATH_EXPR ⟨0, 1⟩ [],
     .token .INDEX ⟨1, 3⟩]

/-- Fixture: an error-recovered field-access node `x.` with neither a
name-reference child nor an index token. -/
def ex_field_bad : SyntaxElement :=
  .node .FIELD_EXPR ⟨0, 5⟩
    [.node .PATH_EXPR ⟨0, 1⟩ [],
     .token .DOT ⟨1, 2⟩]

/-- Fixture: the tree of the literal `42`. -/
def ex_literal : SyntaxElement :=
  .node .LITERAL ⟨0, 2⟩ [.token .INT_NUMBER ⟨0, 2⟩]

/-- Fixture: the tree of `if c { 1 } else { 2 }` as a conditional node. -/
def ex_if_else : SyntaxElement :=
  .node .IF_EXPR ⟨0, 22⟩
    [.token .OTHER ⟨0, 2⟩,
     .node .PATH_EXPR ⟨3, 4⟩ [],
     .node .BLOCK_EXPR ⟨5, 10⟩ [],
     .token .OTHER ⟨11, 15⟩,
     .node .BLOCK_EXPR ⟨16, 21⟩ []]

/-! Helper lemmas shared by the claim theorems. -/

/-- Splitting lemma for `List.findSome?`: a successful scan isolates the first
element the function accepts, everything before it being rejected. -/
theorem findSome?_some_split {α β : Type} (f : α → Option β) :
    ∀ (l : List α) (b : β), l.findSome? f = some b →
      ∃ a l₁ l₂, l = l₁ ++ a :: l₂ ∧ f a = some b ∧ ∀ u ∈ l₁, f u = none := by
  intro l
  induction l with
  | nil => intro b h; simp [List.findSome?] at h
  | cons x xs ih =>
    intro b h
    rw [List.findSome?_cons] at h
    cases hx : f x with
    | some v =>
      rw [hx] at h
      simp only [Option.some.injEq] at h
      exact ⟨x, [], xs, rfl, by rw [hx, h], by simp⟩
    | none =>
      rw [hx] at h
      obtain ⟨a, l₁, l₂, hsplit, ha, hbefore⟩ := ih b h
      refine ⟨a, x :: l₁, l₂, by rw [hsplit, List.cons_append], ha, ?_⟩
      intro u hu
      rcases List.mem_cons.mp hu with h1 | h2
      · rw [h1]; exact hx
      · exact hbefore u h2

/-- Characterization of `child_opt` returning no result: no child is a node
of the requested kind. -/
theorem child_opt_eq_none_iff (k : SyntaxKind) (n : SyntaxElement) :
    child_opt k n = none ↔
      ∀ e ∈ n.children_with_tokens, ¬(e.is_node = true ∧ e.kind = k) := by
  unfold child_opt
  rw [List.head?_eq_none_iff, List.filter_eq_nil_iff]
  constructor
  · intro h e he ⟨h1, h2⟩
    exact h e he (by simp [h1, h2])
  · intro h e he hfe
    simp only [Bool.and_eq_true, beq_iff_eq] at hfe
    exact h e he hfe

/-- Characterization of `child_opt` returning a result: the child returned is
the first node of the requested kind. -/
theorem child_opt_eq_some (k : SyntaxKind) (n c : SyntaxElement)
    (h : child_opt k n = some c) :
    c ∈ n.children_with_tokens ∧ c.is_node = true ∧ c.kind = k := by
  unfold child_opt at h
  have hmem := List.mem_of_mem_head? h
  have hp := List.of_mem_filter hmem
  simp only [Bool.and_eq_true, beq_iff_eq] at hp
  exact ⟨List.mem_of_mem_filter hmem, hp⟩

/-- C6: for every prefix-expression node, `op_token` returns the node's first
child-or-token element exactly when that element is a token (no result when it
is a node or absent), and `op_kind` maps the token's kind through the fixed
table: `!` to `Not`, `-` to `Neg`, anything else (or a missing token) to no
result. -/
theorem prefixexpr_op_token_op_kind_spec (n : SyntaxElement) :
    (∀ e, n.first_child_or_token = some e →
        PrefixExpr.op_token n = if e.is_token = true then some e else none) ∧
    (n.first_child_or_token = none → PrefixExpr.op_token n = none) ∧
    (∀ t, PrefixExpr.op_token n = some t →
        PrefixExpr.op_kind n =
          if t.kind = SyntaxKind.EXCL then some PrefixOp.Not
          else if t.kind = SyntaxKind.MINUS then some PrefixOp.Neg
          else none) ∧
    (PrefixExpr.op_token n = none → PrefixExpr.op_kind n = none) := by
  refine ⟨?_, ?_, ?_, ?_⟩
  · intro e he
    cases e with
    | node k r cs =>
      simp [PrefixExpr.op_token, he, SyntaxElement.into_token, SyntaxElement.is_token]
    | token k r =>
      simp [PrefixExpr.op_token, he, SyntaxElement.into_token, SyntaxElement.is_token]
  · intro h
    simp [PrefixExpr.op_token, h]
  · intro t ht
    cases hk : t.kind <;>
      simp [PrefixExpr.op_kind, ht, hk]
  · intro h
    simp [PrefixExpr.op_kind, h]

/-- C3: for every binary-expression node, `op_details` scans the child tokens
in source order and returns the first one whose kind is in the fixed operator
table together with the mapped `BinOp`; it returns no result exactly when no
child token's kind is in the table; and the table maps exactly the fifteen
listed operator kinds. -/
theorem binexpr_op_details_spec (n : SyntaxElement) :
    (BinExpr.op_details n = none ↔
      ∀ t ∈ child_tokens n, bin_op_for_kind t.kind = none) ∧
    (∀ t op, BinExpr.op_details n = some (t, op) →
        bin_op_for_kind t.kind = some op ∧
        ∃ l₁ l₂, child_tokens n = l₁ ++ t :: l₂ ∧
          ∀ u ∈ l₁, bin_op_for_kind u.kind = none) ∧
    (bin_op_for_kind SyntaxKind.PLUS = some BinOp.Add ∧
     bin_op_for_kind SyntaxKind.MINUS = some BinOp.Subtract ∧
     bin_op_for_kind SyntaxKind.SLASH = some BinOp.Divide ∧
     bin_op_for_kind SyntaxKind.STAR = some BinOp.Multiply ∧
     bin_op_for_kind SyntaxKind.EQ = some BinOp.Assign ∧
     bin_op_for_kind SyntaxKind.PLUSEQ = some BinOp.AddAssign ∧
     bin_op_for_kind SyntaxKind.MINUSEQ = some BinOp.SubtractAssign ∧
     bin_op_for_kind SyntaxKind.SLASHEQ = some BinOp.DivideAssign ∧
     bin_op_for_kind SyntaxKind.STAREQ = some BinOp.MultiplyAssign ∧
     bin_op_for_kind SyntaxKind.EQEQ = some BinOp.Equals ∧
     bin_op_for_kind SyntaxKind.NEQ = some BinOp.NotEquals ∧
     bin_op_for_kind SyntaxKind.LT = some BinOp.Less ∧
     bin_op_for_kind SyntaxKind.LTEQ = some BinOp.LessEqual ∧
     bin_op_for_kind SyntaxKind.GT = some BinOp.Greater ∧
     bin_op_for_kind SyntaxKind.GTEQ = some BinOp.GreatEqual) ∧
    (∀ k, k ∉ ([SyntaxKind.PLUS, SyntaxKind.MINUS, SyntaxKind.SLASH,
        SyntaxKind.STAR, SyntaxKind.EQ, SyntaxKind.PLUSEQ, SyntaxKind.MINUSEQ,
        SyntaxKind.SLASHEQ, SyntaxKind.STAREQ, SyntaxKind.EQEQ, SyntaxKind.NEQ,
        SyntaxKind.LT, SyntaxKind.LTEQ, SyntaxKind.GT, SyntaxKind.GTEQ] :
        List SyntaxKind) → bin_op_for_kind k = none) := by
  refine ⟨?_, ?_, ?_, ?_⟩
  · rw [BinExpr.op_details, List.findSome?_eq_none_iff]
    constructor
    · intro h t ht
      have := h t ht
      cases hb : bin_op_for_kind t.kind with
      | none => rfl
      | some op => rw [hb] at this; simp at this
    · intro h t ht
      rw [h t ht]; rfl
  · intro t op h
    obtain ⟨a, l₁, l₂, hsplit, ha, hbefore⟩ :=
      findSome?_some_split _ (child_tokens n) (t, op) h
    cases hb : bin_op_for_kind a.kind with
    | none => rw [hb] at ha; simp at ha
    | some op2 =>
      rw [hb] at ha
      simp only [Option.map_some', Option.some.injEq, Prod.mk.injEq] at ha
      obtain ⟨rfl, rfl⟩ := ha
      refine ⟨hb, l₁, l₂, hsplit, ?_⟩
      intro u hu
      have := hbefore u hu
      cases hu2 : bin_op_for_kind u.kind with
      | none => rfl
      | some op3 => rw [hu2] at this; simp at this
  · exact ⟨rfl, rfl, rfl, rfl, rfl, rfl, rfl, rfl, rfl, rfl, rfl, rfl, rfl,
      rfl, rfl⟩
  · intro k hk
    cases k <;> first | rfl | simp at hk

/-- C8: for every binary-expression node, `sub_exprs` returns exactly the pair
of `lhs` and `rhs`: the first and second expression-typed children, each no
result when absent. -/
theorem binexpr_sub_exprs_spec (n : SyntaxElement) :
    BinExpr.sub_exprs n = (BinExpr.lhs n, BinExpr.rhs n) ∧
    BinExpr.lhs n = (expr_children n).get? 0 ∧
    BinExpr.rhs n = (expr_children n).get? 1 := by
  refine ⟨?_, ?_, rfl⟩
  · unfold BinExpr.sub_exprs BinExpr.lhs BinExpr.rhs
    cases expr_children n with
    | nil => rfl
    | cons a l => cases l <;> rfl
  · unfold BinExpr.lhs
    cases expr_children n <;> rfl

/-- Well-formedness of a node with respect to the lexical kind `INDEX`: no
child node carries it. `INDEX` is a token-only kind, produced by the lexer and
never used by the parser as a grammar production tag. -/
def no_index_node (n : SyntaxElement) : Prop :=
  ∀ e ∈ n.children_with_tokens, e.is_node = true → e.kind ≠ SyntaxKind.INDEX

/-- Characterization of `index_token` returning no result, on well-formed
nodes: no child token has kind `INDEX`. -/
theorem index_token_eq_none_iff (n : SyntaxElement) (hwf : no_index_node n) :
    FieldExpr.index_token n = none ↔
      ∀ e ∈ n.children_with_tokens, ¬(e.is_token = true ∧ e.kind = SyntaxKind.INDEX) := by
  unfold FieldExpr.index_token
  constructor
  · intro h e he ⟨h1, h2⟩
    cases hf : n.children_with_tokens.find? (fun e => e.kind == SyntaxKind.INDEX) with
    | none =>
      rw [List.find?_eq_none] at hf
      exact hf e he (by simp [h2])
    | some a =>
      have ha : a.kind = SyntaxKind.INDEX := by
        have := List.find?_some hf
        simpa using this
      have hamem := List.mem_of_find?_eq_some hf
      cases a with
      | node k r cs => exact hwf _ hamem rfl ha
      | token k r =>
        rw [hf] at h
        simp [SyntaxElement.into_token] at h
  · intro h
    cases hf : n.children_with_tokens.find? (fun e => e.kind == SyntaxKind.INDEX) with
    | none => rfl
    | some a =>
      have ha : a.kind = SyntaxKind.INDEX := by
        have := List.find?_some hf
        simpa using this
      have hamem := List.mem_of_find?_eq_some hf
      cases a with
      | node k r cs => exact absurd ha (hwf _ hamem rfl)
      | token k r => exact absurd ⟨rfl, ha⟩ (h _ hamem)

/-- Existence of an `INDEX` child token forces `index_token` to succeed on a
well-formed node, and the token returned is itself an `INDEX` child token. -/
theorem index_token_some_of_exists (n : SyntaxElement) (hwf : no_index_node n)
    (hex : ∃ e ∈ n.children_with_tokens, e.is_token = true ∧ e.kind = SyntaxKind.INDEX) :
    ∃ t, FieldExpr.index_token n = some t ∧ t ∈ n.children_with_tokens ∧
      t.is_token = true ∧ t.kind = SyntaxKind.INDEX := by
  cases ht : FieldExpr.index_token n with
  | none =>
    obtain ⟨e, he, hprop⟩ := hex
    exact absurd hprop ((index_token_eq_none_iff n hwf).mp ht e he)
  | some t =>
    unfold FieldExpr.index_token at ht
    cases hf : n.children_with_tokens.find? (fun e => e.kind == SyntaxKind.INDEX) with
    | none => rw [hf] at ht; simp at ht
    | some a =>
      rw [hf] at ht
      have ha : a.kind = SyntaxKind.INDEX := by
        have := List.find?_some hf
        simpa using this
      have hamem := List.mem_of_find?_eq_some hf
      cases a with
      | node k r cs => exact absurd ha (hwf _ hamem rfl)
      | token k r =>
        simp only [SyntaxElement.into_token, Option.some_bind, Option.some.injEq] at ht
        exact ⟨t, rfl, by subst ht; exact ⟨hamem, rfl, ha⟩⟩

/-- C5: for every well-formed field-access node, `field_access` returns `Name`
wrapping the name-reference child when one exists, otherwise `Index` wrapping
the index token when one exists, and no result exactly when the node has
neither a name-reference child nor an index token. -/
theorem fieldexpr_field_access_spec (n : SyntaxElement) (hwf : no_index_node n) :
    (∀ nr, FieldExpr.name_ref n = some nr →
        FieldExpr.field_access n = some (FieldKind.Name nr)) ∧
    (FieldExpr.name_ref n = none → ∀ t, FieldExpr.index_token n = some t →
        FieldExpr.field_access n = some (FieldKind.Index t)) ∧
    (FieldExpr.field_access n = none ↔
      (∀ e ∈ n.children_with_tokens,
        ¬(e.is_node = true ∧ e.kind = SyntaxKind.NAME_REF)) ∧
      (∀ e ∈ n.children_with_tokens,
        ¬(e.is_token = true ∧ e.kind = SyntaxKind.INDEX))) := by
  refine ⟨?_, ?_, ?_⟩
  · intro nr h
    simp [FieldExpr.field_access, h]
  · intro h1 t h2
    simp [FieldExpr.field_access, h1, h2]
  · constructor
    · intro h
      cases h1 : FieldExpr.name_ref n with
      | some nr => simp [FieldExpr.field_access, h1] at h
      | none =>
        cases h2 : FieldExpr.index_token n with
        | some t => simp [FieldExpr.field_access, h1, h2] at h
        | none =>
          exact ⟨(child_opt_eq_none_iff SyntaxKind.NAME_REF n).mp h1,
            (index_token_eq_none_iff n hwf).mp h2⟩
    · intro ⟨hname, hidx⟩
      have h1 : FieldExpr.name_ref n = none :=
        (child_opt_eq_none_iff SyntaxKind.NAME_REF n).mpr hname
      have h2 : FieldExpr.index_token n = none :=
        (index_token_eq_none_iff n hwf).mpr hidx
      simp [FieldExpr.field_access, h1, h2]

/-- C5 witness: on the fixture `x.0`, which is well formed and has an index
token but no name-reference child, `field_access` returns `Index` wrapping the
index token. -/
theorem fieldexpr_field_access_spec_witness :
    FieldExpr.field_access ex_field_index =
      some (FieldKind.Index (SyntaxElement.token SyntaxKind.INDEX ⟨1, 3⟩)) :=
  (fieldexpr_field_access_spec ex_field_index
    (by intro e he h1 h2; simp [ex_field_index, SyntaxElement.children_with_tokens] at he; rcases he with rfl | rfl <;> simp_all [SyntaxElement.kind, SyntaxElement.is_node])).2.1
    rfl _ rfl

/-- C7: for every well-formed field-access node, `field_range` equals the
name-reference child's own range when one exists, and otherwise, when an index
token exists, starts one text unit after the index token's start and ends at
the index token's end. -/
theorem fieldexpr_field_range_spec (n : SyntaxElement) (hwf : no_index_node n) :
    (∀ nr, FieldExpr.name_ref n = some nr →
        FieldExpr.field_range n = nr.text_range) ∧
    (FieldExpr.name_ref n = none →
      (∃ e ∈ n.children_with_tokens, e.is_token = true ∧ e.kind = SyntaxKind.INDEX) →
      ∃ t, FieldExpr.index_token n = some t ∧
        FieldExpr.field_range n =
          TextRange.from_to (t.text_range.start + 1) t.text_range.stop) := by
  constructor
  · intro nr h
    simp [FieldExpr.field_range, h, Option.or, TextRange.from_to]
  · intro h1 hex
    obtain ⟨t, ht, _, _, _⟩ := index_token_some_of_exists n hwf hex
    refine ⟨t, ht, ?_⟩
    simp [FieldExpr.field_range, h1, ht, Option.or, TextRange.from_to]

/-- C7 witness: on the fixture `x.0`, `field_range` is the index token's range
with its start shifted one unit right, skipping the separator. -/
theorem fieldexpr_field_range_spec_witness :
    ∃ t, FieldExpr.index_token ex_field_index = some t ∧
      FieldExpr.field_range ex_field_index =
        TextRange.from_to (t.text_range.start + 1) t.text_range.stop :=
  (fieldexpr_field_range_spec ex_field_index
    (by intro e he h1 h2; simp [ex_field_index, SyntaxElement.children_with_tokens] at he; rcases he with rfl | rfl <;> simp_all [SyntaxElement.kind, SyntaxElement.is_node])).2
    rfl ⟨SyntaxElement.token SyntaxKind.INDEX ⟨1, 3⟩, by simp [ex_field_index, SyntaxElement.children_with_tokens, SyntaxElement.is_token, SyntaxElement.kind]⟩

/-- C1 counterexample: an error-recovered field-access node of nonzero width
with neither a name-reference child nor an index token, on which `field_range`
is the node's full range, not the zero-width range at the node's start the
claim announces. -/
theorem fieldexpr_field_range_fallback_cex :
    FieldExpr.name_ref ex_field_bad = none ∧
    FieldExpr.index_token ex_field_bad = none ∧
    ex_field_bad.text_range.start = 0 ∧
    FieldExpr.field_range ex_field_bad ≠ TextRange.from_to 0 0 := by
  refine ⟨rfl, rfl, rfl, ?_⟩
  decide

/-- C1 (amended): for every field-access node with neither a name-reference
child nor an index token, `field_range` falls back to the node's full range:
it starts at the node's start and ends at the node's end. -/
theorem fieldexpr_field_range_fallback (n : SyntaxElement)
    (h1 : FieldExpr.name_ref n = none) (h2 : FieldExpr.index_token n = none) :
    FieldExpr.field_range n = n.text_range := by
  simp [FieldExpr.field_range, h1, h2, Option.or, TextRange.from_to]

/-- C1 witness: the amended fallback evaluated on the error-recovered fixture. -/
theorem fieldexpr_field_range_fallback_witness :
    FieldExpr.field_range ex_field_bad = ex_field_bad.text_range :=
  fieldexpr_field_range_fallback ex_field_bad rfl rfl

/-- Conversion to a token succeeds exactly on tokens and is the identity
there. -/
theorem into_token_eq_some (e t : SyntaxElement) :
    e.into_token = some t ↔ e.is_token = true ∧ t = e := by
  cases e <;> simp [SyntaxElement.into_token, SyntaxElement.is_token, eq_comm]

/-- C2: for every literal node whose meaningful token has the string, integer,
float or boolean kind, `kind` returns the matching `LiteralKind`; for a
meaningful token of any other kind, the fatal `unreachable!()` branch is
taken, modelled by `none`. -/
theorem literal_kind_spec (n t : SyntaxElement) (h : Literal.token n = some t) :
    (t.kind = SyntaxKind.STRING → Literal.kind n = some LiteralKind.String) ∧
    (t.kind = SyntaxKind.INT_NUMBER → Literal.kind n = some LiteralKind.IntNumber) ∧
    (t.kind = SyntaxKind.FLOAT_NUMBER → Literal.kind n = some LiteralKind.FloatNumber) ∧
    ((t.kind = SyntaxKind.TRUE_KW ∨ t.kind = SyntaxKind.FALSE_KW) →
      Literal.kind n = some LiteralKind.Bool) ∧
    (t.kind ∉ ([SyntaxKind.STRING, SyntaxKind.INT_NUMBER, SyntaxKind.FLOAT_NUMBER,
        SyntaxKind.TRUE_KW, SyntaxKind.FALSE_KW] : List SyntaxKind) →
      Literal.kind n = none) := by
  refine ⟨fun hk => by simp [Literal.kind, h, hk],
          fun hk => by simp [Literal.kind, h, hk],
          fun hk => by simp [Literal.kind, h, hk],
          fun hk => by rcases hk with hk | hk <;> simp [Literal.kind, h, hk],
          fun hk => ?_⟩
  cases hk2 : t.kind <;>
    simp [Literal.kind, h, hk2] <;>
    (rw [hk2] at hk; simp at hk)

/-- C2 witness: the literal fixture `42` classifies as an integer literal. -/
theorem literal_kind_spec_witness :
    Literal.kind ex_literal = some LiteralKind.IntNumber :=
  (literal_kind_spec ex_literal
    (SyntaxElement.token SyntaxKind.INT_NUMBER ⟨0, 2⟩) rfl).2.1 rfl

/-- C9: `Literal::token` is partial: it returns a token exactly when the first
non-trivia child element exists and is a token (and then returns that very
element); when the first non-trivia child element is absent or is a node, the
source unwrap panics, modelled by `none`. -/
theorem literal_token_partiality (n : SyntaxElement) :
    ((∃ t, Literal.token n = some t) ↔
      ∃ e, Literal.first_non_trivia n = some e ∧ e.is_token = true) ∧
    (∀ t, Literal.token n = some t →
      Literal.first_non_trivia n = some t ∧ t.is_token = true) ∧
    (Literal.first_non_trivia n = none → Literal.token n = none) ∧
    (∀ e, Literal.first_non_trivia n = some e → e.is_node = true →
      Literal.token n = none) := by
  have key : ∀ t, Literal.token n = some t →
      Literal.first_non_trivia n = some t ∧ t.is_token = true := by
    intro t h
    unfold Literal.token at h
    cases hf : Literal.first_non_trivia n with
    | none => rw [hf] at h; simp at h
    | some e =>
      rw [hf] at h
      simp only [Option.some_bind] at h
      obtain ⟨htok, rfl⟩ := (into_token_eq_some e t).mp h
      exact ⟨rfl, htok⟩
  refine ⟨⟨fun ⟨t, h⟩ => ⟨t, key t h⟩, fun ⟨e, hf, htok⟩ => ?_⟩, key, ?_, ?_⟩
  · refine ⟨e, ?_⟩
    unfold Literal.token
    rw [hf]
    simp only [Option.some_bind]
    exact (into_token_eq_some e e).mpr ⟨htok, rfl⟩
  · intro h
    unfold Literal.token
    rw [h]
    rfl
  · intro e hf hnode
    unfold Literal.token
    rw [hf]
    cases e with
    | node k r cs => rfl
    | token k r => simp [SyntaxElement.is_node] at hnode

/-- C4: for every conditional-expression node, `else_branch` returns `Block`
wrapping the second nested block-expression child when one exists, otherwise
`IfExpr` wrapping the nested conditional child when one exists, and no result
exactly when neither a second block child nor a nested conditional child
exists. -/
theorem ifexpr_else_branch_spec (n : SyntaxElement) :
    (∀ b, (IfExpr.blocks n).get? 1 = some b →
        IfExpr.else_branch n = some (ElseBranch.Block b)) ∧
    ((IfExpr.blocks n).get? 1 = none →
      ∀ e, child_opt SyntaxKind.IF_EXPR n = some e →
        IfExpr.else_branch n = some (ElseBranch.IfExpr e)) ∧
    (IfExpr.else_branch n = none ↔
      ((IfExpr.blocks n).get? 1 = none ∧
       ∀ e ∈ n.children_with_tokens,
         ¬(e.is_node = true ∧ e.kind = SyntaxKind.IF_EXPR))) := by
  refine ⟨?_, ?_, ?_⟩
  · intro b h
    unfold IfExpr.else_branch
    rw [h]
  · intro h1 e h2
    unfold IfExpr.else_branch
    rw [h1, h2]
    rfl
  · unfold IfExpr.else_branch
    cases h1 : (IfExpr.blocks n).get? 1 with
    | some b =>
      constructor
      · intro h; simp at h
      · intro ⟨ha, _⟩; simp at ha
    | none =>
      rw [Option.map_eq_none', child_opt_eq_none_iff]
      simp

/-- C10: whenever `else_branch` returns a `Block`, the conditional node also
has a then-branch, and the else block is the block child at position one of
the block-children sequence, strictly after the then-branch block at position
zero. -/
theorem ifexpr_else_block_after_then (n b : SyntaxElement)
    (h : IfExpr.else_branch n = some (ElseBranch.Block b)) :
    ∃ tb, IfExpr.then_branch n = some tb ∧
      (IfExpr.blocks n).get? 0 = some tb ∧
      (IfExpr.blocks n).get? 1 = some b := by
  cases h2 : (IfExpr.blocks n).get? 1 with
  | none =>
    unfold IfExpr.else_branch at h
    rw [h2] at h
    cases hc : child_opt SyntaxKind.IF_EXPR n <;> rw [hc] at h <;> simp at h
  | some b2 =>
    unfold IfExpr.else_branch at h
    rw [h2] at h
    simp only [Option.some.injEq, ElseBranch.Block.injEq] at h
    subst h
    cases hl : IfExpr.blocks n with
    | nil => rw [hl] at h2; simp at h2
    | cons a l =>
      refine ⟨a, ?_, rfl, rfl⟩
      unfold IfExpr.then_branch
      rw [hl]
      rfl

/-- C10 witness: on the fixture `if c { 1 } else { 2 }`, the else block is the
second block child and the then block the first. -/
theorem ifexpr_else_block_after_then_witness :
    ∃ tb, IfExpr.then_branch ex_if_else = some tb ∧
      (IfExpr.blocks ex_if_else).get? 0 = some tb ∧
      (IfExpr.blocks ex_if_else).get? 1 =
        some (SyntaxElement.node SyntaxKind.BLOCK_EXPR ⟨16, 21⟩ []) :=
  ifexpr_else_block_after_then ex_if_else
    (SyntaxElement.node SyntaxKind.BLOCK_EXPR ⟨16, 21⟩ []) rfl

end Mun
